import Mathlib

/-
Verification development for the `Throttle` repository.

The file shallowly embeds `src/bandwidth_proxy.py`, a rate-limiting HTTP
CONNECT tunneling proxy.  The Python coroutine `token_bucket_copy` is modelled
as a deterministic function of the data the environment hands it: the list of
buffers returned by successive `reader.read(8192)` calls and, for every
iteration of the inner `while idx < len(data)` loop, the elapsed monotonic
time observed at `time.monotonic()` together with an optional exception raised
at that iteration's await point (`writer.drain()` when a chunk is written,
`asyncio.sleep` otherwise).  Token amounts are rationals, mirroring Python
floats without rounding (the float rounding is irrelevant to the claims, which
are about ordering, clamping and floor arithmetic).  `handle_client` is
modelled as a function from the captured request bytes and the success of
`asyncio.open_connection` to the list of externally visible actions it
performs, in order.
-/

/-- Python exceptions distinguished by the relay's `try`/`except` clauses:
`asyncio.CancelledError`, `ConnectionResetError`, and any other `Exception`. -/
inductive PyExc
  | cancelled
  | connReset
  | other
  deriving DecidableEq, Repr

/-- Outcome of one `await reader.read(8192)` call: either a buffer of bytes
(possibly empty, signalling EOF) or an exception raised during the read. -/
inductive ReadEv
  | data (bytes : List ℕ)
  | raiseE (e : PyExc)
  deriving DecidableEq, Repr

/-- Observable event of the relay loop.  `write` and `sleep` record the token
balance right after the refill-and-clamp step (`tokensObs`) and the number of
unsent bytes of the current read (`rem = len(data) - idx`), which are the
inputs of the grant computation at that iteration. -/
inductive Ev
  | readEv (bytes : List ℕ)
  | write (tokensObs : ℚ) (rem : ℕ) (chunk : List ℕ)
  | sleep (tokensObs : ℚ) (rem : ℕ)
  deriving DecidableEq, Repr

/-- How a run of the relay loop (or of one inner flush loop) ended.
`flushed`: the inner loop consumed its whole read buffer; `finished`: the
outer loop ended normally (EOF read or read list exhausted); `clockOut`: the
supplied schedule of clock observations ran out, i.e. the execution is
truncated at this observation point; `resetStop`: `writer.drain()` raised
`ConnectionResetError` and the inner `except` returned normally;
`raised e`: exception `e` is propagating out of the loop body. -/
inductive RunRes
  | flushed
  | finished
  | clockOut
  | resetStop
  | raised (e : PyExc)
  deriving DecidableEq, Repr

/-- Result of running the relay loop: events in order, final token balance,
unconsumed clock schedule, and how the run ended. -/
structure RunOut where
  evs : List Ev
  tEnd : ℚ
  rest : List (ℚ × Option PyExc)
  res : RunRes
  deriving DecidableEq, Repr

/-- Schedule of inner-loop iterations: elapsed monotonic time observed at the
iteration, and an optional exception raised at the iteration's await point. -/
abbrev Sig := List (ℚ × Option PyExc)

/-- Python `int()` applied to a rational: truncation toward zero, written with
the executable `Rat.floor` so that concrete traces evaluate by `decide`. -/
def pyInt (q : ℚ) : ℤ := if q < 0 then -Rat.floor (-q) else Rat.floor q

/-- Source line 23: `KBPS_TO_BPS = 1000` (1000 bits per kilobit, not 1024). -/
def KBPS_TO_BPS : ℚ := 1000

/-- Source line 55: `bytes_per_second = (rate_kbps * KBPS_TO_BPS) / 8.0`. -/
def bytes_per_second (rate_kbps : ℚ) : ℚ := rate_kbps * KBPS_TO_BPS / 8

/-- Source line 59: `max_chunk = 16 * 1024` (16 KiB). -/
def max_chunk : ℚ := 16 * 1024

/-- Refill-and-clamp step of the bucket (source lines 73-81):
`tokens += elapsed * bytes_per_second; if tokens > 2 * bytes_per_second:
tokens = 2 * bytes_per_second`. -/
def refill (bps tokens elapsed : ℚ) : ℚ :=
  if tokens + elapsed * bps > 2 * bps then 2 * bps
  else tokens + elapsed * bps

/-- Grant computation (source line 83):
`allowed = int(min(tokens, max_chunk, len(data) - idx))`. -/
def grant (tokens : ℚ) (rem : ℕ) : ℤ :=
  pyInt (min (min tokens max_chunk) (rem : ℚ))

/-- Inner flush loop of `token_bucket_copy` (source lines 72-98):
`while idx < len(data)`, refill-and-clamp the tokens, grant
`int(min(tokens, max_chunk, len(data)-idx))` bytes; sleep if the grant is not
positive, otherwise write the granted slice, drain (where a
`ConnectionResetError` returns normally and any other exception propagates),
then advance `idx` and debit `tokens`.  The loop is driven by the schedule
`sig`; when the schedule is exhausted the run is reported truncated
(`clockOut`).  The `idx < len(data)` while-condition is checked first in both
pattern branches, exactly as in the source. -/
def innerLoop (bps : ℚ) (data : List ℕ) : Sig → ℚ → ℕ → RunOut
  | [], tokens, idx =>
    if idx < data.length then ⟨[], tokens, [], .clockOut⟩
    else ⟨[], tokens, [], .flushed⟩
  | (elapsed, exc) :: rest, tokens, idx =>
    if idx < data.length then
      let t2 := refill bps tokens elapsed
      let rem := data.length - idx
      let allowed := grant t2 rem
      if allowed ≤ 0 then
        match exc with
        | some e => ⟨[.sleep t2 rem], t2, rest, .raised e⟩
        | none =>
          let o := innerLoop bps data rest t2 idx
          ⟨.sleep t2 rem :: o.evs, o.tEnd, o.rest, o.res⟩
      else
        let chunk := (data.drop idx).take allowed.toNat
        match exc with
        | some .connReset => ⟨[.write t2 rem chunk], t2, rest, .resetStop⟩
        | some e => ⟨[.write t2 rem chunk], t2, rest, .raised e⟩
        | none =>
          let o := innerLoop bps data rest (t2 - (allowed : ℚ))
            (idx + allowed.toNat)
          ⟨.write t2 rem chunk :: o.evs, o.tEnd, o.rest, o.res⟩
    else ⟨[], tokens, (elapsed, exc) :: rest, .flushed⟩

/-- Outer read loop of `token_bucket_copy` (source lines 67-98):
`data = await reader.read(8192)`; an empty buffer breaks out of the loop
(normal end); a read buffer is flushed through `innerLoop` before the next
read; exhausting the supplied read list models EOF. -/
def bodyRun (bps : ℚ) : List ReadEv → ℚ → Sig → RunOut
  | [], tokens, sig => ⟨[], tokens, sig, .finished⟩
  | .raiseE e :: _, tokens, sig => ⟨[], tokens, sig, .raised e⟩
  | .data b :: rs, tokens, sig =>
    if b.isEmpty then ⟨[.readEv b], tokens, sig, .finished⟩
    else
      let o := innerLoop bps b sig tokens 0
      match o.res with
      | .flushed =>
        let o2 := bodyRun bps rs o.tEnd o.rest
        ⟨.readEv b :: o.evs ++ o2.evs, o2.tEnd, o2.rest, o2.res⟩
      | r => ⟨.readEv b :: o.evs, o.tEnd, o.rest, r⟩

/-- Exception boundary of `token_bucket_copy` (source lines 99-105):
`except asyncio.CancelledError: raise` re-raises cancellation; `except
Exception: pass` swallows everything else; a body that did not raise
propagates nothing. -/
def excHandler : RunRes → Option PyExc
  | .raised .cancelled => some .cancelled
  | .raised _ => none
  | _ => none

/-- Top-level actions of `token_bucket_copy` outside the copy loop: the
`writer.drain()` and `writer.close()` of the zero-rate branch. -/
inductive TopAct
  | drainW
  | closeW
  deriving DecidableEq, Repr

/-- Full observable outcome of one `token_bucket_copy` invocation. -/
structure RelayOut where
  acts : List TopAct
  trace : List Ev
  finalTokens : ℚ
  bodyRes : RunRes
  exc : Option PyExc
  deriving DecidableEq, Repr

/-- Model of `token_bucket_copy` (source lines 26-105).  A non-positive rate
drains and closes the writer and returns at once (lines 47-51; the
`finalTokens` field is a dead value `0` there, the bucket is never created).
Otherwise the bucket starts with one second of allowance
(`tokens = bytes_per_second`) and the copy loop runs under the exception
boundary `excHandler`. -/
def token_bucket_copy (rate_kbps : ℚ) (reads : List ReadEv) (sig : Sig) :
    RelayOut :=
  if rate_kbps ≤ 0 then ⟨[.drainW, .closeW], [], 0, .finished, none⟩
  else
    let o := bodyRun (bytes_per_second rate_kbps) reads
      (bytes_per_second rate_kbps) sig
    ⟨[], o.evs, o.tEnd, o.res, excHandler o.res⟩

/-- Chunks written to the sink, in order, extracted from an event trace. -/
def chunksOf : List Ev → List (List ℕ)
  | [] => []
  | .write _ _ c :: t => c :: chunksOf t
  | _ :: t => chunksOf t

/-- Total number of payload bytes written in an event trace. -/
def writtenBytes : List Ev → ℕ
  | [] => 0
  | .write _ _ c :: t => c.length + writtenBytes t
  | _ :: t => writtenBytes t

/-- Sum of the elapsed-time observations of a schedule. -/
def elapsedSum (sig : Sig) : ℚ := (sig.map Prod.fst).sum

/-- Decoded request text, one Python `str` character per entry.  Plain
`List Char` is used (rather than `String`) so that concrete request traces
evaluate inside the kernel. -/
abbrev PyStr := List Char

/-- Python whitespace for `str.strip()` / `str.split()`:
space, tab, newline, carriage return, vertical tab and form feed. -/
def pyIsSpace (c : Char) : Bool :=
  c == ' ' || c == '\t' || c == '\n' || c == '\r' || c == '\x0b' || c == '\x0c'

/-- Python `str.strip()`: drop whitespace from both ends. -/
def pyStrip (s : PyStr) : PyStr :=
  ((s.dropWhile pyIsSpace).reverse.dropWhile pyIsSpace).reverse

/-- Python `str.lower()` on the ASCII request text. -/
def pyLower (s : PyStr) : PyStr := s.map Char.toLower

/-- Python `str.upper()` on the ASCII request text. -/
def pyUpper (s : PyStr) : PyStr := s.map Char.toUpper

/-- Worker for `pySplitWs`: accumulate the current word (reversed) while
scanning, emitting a word at each whitespace run boundary. -/
def pyWordsAux : PyStr → PyStr → List PyStr
  | cur, [] => if cur.isEmpty then [] else [cur.reverse]
  | cur, c :: cs =>
    if pyIsSpace c then
      if cur.isEmpty then pyWordsAux [] cs
      else cur.reverse :: pyWordsAux [] cs
    else pyWordsAux (c :: cur) cs

/-- Python `str.split()` with no argument: split on whitespace runs, dropping
empty pieces. -/
def pySplitWs (s : PyStr) : List PyStr := pyWordsAux [] s

/-- Fuelled worker for `pySplit`; the fuel (the string length) only serves to
make the recursion structural, since a found separator skips
`sep.length ≥ 1` characters. -/
def pySplitF (sep : PyStr) : ℕ → PyStr → List PyStr
  | _, [] => [[]]
  | 0, s => [s]
  | fuel + 1, c :: cs =>
    if !sep.isEmpty && sep.isPrefixOf (c :: cs) then
      [] :: pySplitF sep fuel ((c :: cs).drop sep.length)
    else
      match pySplitF sep fuel cs with
      | [] => [[c]]
      | p :: ps => (c :: p) :: ps

/-- Python `str.split(sep)` with a non-empty separator: all pieces between
non-overlapping occurrences of `sep`, empty pieces kept. -/
def pySplit (sep s : PyStr) : List PyStr := pySplitF sep s.length s

/-- Python `str.split(sep, 1)` when `sep` occurs in `s`: the part before the
first occurrence and the part after it. -/
def pySplitOnce (sep : PyStr) : PyStr → Option (PyStr × PyStr)
  | [] => none
  | c :: cs =>
    if sep.isPrefixOf (c :: cs) then some ([], (c :: cs).drop sep.length)
    else
      match pySplitOnce sep cs with
      | none => none
      | some (a, b) => some (c :: a, b)

/-- Accumulate the decimal digits of a Python `int()` literal. -/
def pyDigits? (s : PyStr) : Option ℕ :=
  if s.isEmpty then none
  else
    s.foldl (fun acc c =>
      match acc with
      | none => none
      | some n => if c.isDigit then some (n * 10 + (c.toNat - 48)) else none)
      (some 0)

/-- Python `int(str)` on the decimal strings that occur in request targets:
surrounding whitespace tolerated, optional sign, otherwise all digits
(digit-group underscores are not modelled). -/
def pyParseInt (s : PyStr) : Option ℤ :=
  match pyStrip s with
  | '-' :: ds => (pyDigits? ds).map (fun n => -(n : ℤ))
  | '+' :: ds => (pyDigits? ds).map (fun n => (n : ℤ))
  | t => (pyDigits? t).map (fun n => (n : ℤ))

/-- Externally visible action of `handle_client` / `handle_tunnel`, in program
order: a write to the client stream, a drain of the client stream, an attempt
to open a connection to a target, forwarding the captured header block to the
remote, the start of the two relay tasks (the established tunnel/forward), and
closing the client stream. -/
inductive CAct
  | writeC (s : PyStr)
  | drainC
  | connectA (host : PyStr) (port : ℤ)
  | forwardHdr (headers : PyStr)
  | relaysStarted
  | closeC
  deriving DecidableEq, Repr

/-- Status line written on a successful CONNECT (source line 206). -/
def resp200 : PyStr := "HTTP/1.1 200 Connection established\r\n\r\n".data

/-- Status line written when a target is unreachable (source lines 129, 234). -/
def resp502 : PyStr := "HTTP/1.1 502 Bad Gateway\r\n\r\n".data

/-- Status line written on a non-CONNECT request without a usable Host header
(source line 218). -/
def resp400 : PyStr := "HTTP/1.1 400 Bad Request\r\n\r\n".data

/-- CONNECT target parsing (source lines 195-203): split `host:port` on the
first colon; a missing colon or an unparsable port defaults the port to 443.
The `none` arm of the match is unreachable because the split is only taken
when the target contains a colon. -/
def connect_target (target : PyStr) : PyStr × ℤ :=
  if target.contains ':' then
    match pySplitOnce [':'] target with
    | some (h, p) => (h, (pyParseInt p).getD 443)
    | none => (target, 443)
  else (target, 443)

/-- Model of `handle_tunnel` as seen from the client (source lines 108-150):
attempt the target connection; on failure write one 502 status line, drain and
close the client; on success run the two relays and close both streams. -/
def handle_tunnel (host : PyStr) (port : ℤ) (connectOk : Bool) : List CAct :=
  if connectOk then [.connectA host port, .relaysStarted, .closeC]
  else [.connectA host port, .writeC resp502, .drainC, .closeC]

/-- Host-header scan of the non-CONNECT branch (source lines 212-216): the
first line of the header block whose lowercasing starts with `host:` yields
`line.split(':', 1)[1].strip()`.  The `[]` default is unreachable because a
matching line contains a colon. -/
def host_header_of (hdr_text : PyStr) : Option PyStr :=
  (pySplit "\r\n".data hdr_text).findSome? (fun line =>
    if ("host:".data).isPrefixOf (pyLower line) then
      some (pyStrip (((pySplitOnce [':'] line).map Prod.snd).getD []))
    else none)

/-- Model of `handle_client` (source lines 153-255) from the captured request
bytes: `header` is the first CRLF-terminated line as read, `rest` the further
header lines accumulated up to and including the blank line, and `connectOk`
tells whether `asyncio.open_connection` to the resolved target succeeds.  The
rate arguments are omitted: they are only passed on to the relay tasks, which
are modelled separately by `token_bucket_copy`.  Mirrors the source: fewer
than two request-line tokens close the connection; CONNECT writes the 200
status line and drains before `handle_tunnel` is entered; a non-CONNECT
request whose Host header is missing or has a falsy (empty) stripped value
gets one 400 status line and is closed; otherwise the target from the Host
header is attempted, a failure gets one 502 status line, and a success
forwards the captured header block and runs the relays. -/
def handle_client (header : PyStr) (rest : List PyStr) (connectOk : Bool) :
    List CAct :=
  let first_line := pyStrip header
  let headers := header ++ rest.flatten
  let parts := pySplitWs first_line
  if parts.length < 2 then [.closeC]
  else
    let method := pyUpper (parts.getD 0 [])
    let target := parts.getD 1 []
    if method = "CONNECT".data then
      let hp := connect_target target
      [.writeC resp200, .drainC] ++ handle_tunnel hp.1 hp.2 connectOk
    else
      match host_header_of headers with
      | none => [.writeC resp400, .drainC, .closeC]
      | some hh =>
        if hh.isEmpty then [.writeC resp400, .drainC, .closeC]
        else
          let target_host := (pySplit [':'] hh).headD hh
          let target_port : ℤ :=
            if hh.contains ':' then
              (((pySplitOnce [':'] hh).map Prod.snd).getD []
                |> pyParseInt).getD 80
            else 80
          if connectOk then
            [.connectA target_host target_port, .forwardHdr headers,
              .relaysStarted, .closeC]
          else
            [.connectA target_host target_port, .writeC resp502, .drainC,
              .closeC]

/-- Token-bucket invariant at one observation point of the trace: the balance
recorded after the refill-and-clamp step lies in `[0, cap]`, and a written
chunk never exceeds the recorded balance (so the balance stays nonnegative
after the debit as well). -/
def evTokensOk (cap : ℚ) : Ev → Prop
  | .readEv _ => True
  | .write t _ c => 0 ≤ t ∧ t ≤ cap ∧ (c.length : ℚ) ≤ t
  | .sleep t _ => 0 ≤ t ∧ t ≤ cap

/-- Grant discipline at one observation point of the trace: a written chunk
has exactly the granted size `int(min(tokens, max_chunk, rem))`, which is
positive and bounded by `16384` and by the remaining bytes; a sleep happens
exactly when the grant is not positive. -/
def evShapeOk : Ev → Prop
  | .readEv _ => True
  | .write t rem c =>
      c.length = (grant t rem).toNat ∧ c.length ≤ 16384 ∧ c.length ≤ rem ∧
      0 < grant t rem
  | .sleep t rem => grant t rem ≤ 0

/-- Budget credit of a run result: results from which the loop could continue
or has cleanly stopped still hold their final balance; results that abandoned
an un-debited write hold none. -/
def credit : RunRes → ℚ → ℚ
  | .flushed, t => t
  | .finished, t => t
  | .clockOut, t => t
  | .resetStop, _ => 0
  | .raised _, _ => 0

/-- Combined induction invariant for the relay loop: all observation points
satisfy the token-bucket bounds and the grant discipline, the final balance
is within bounds, the unconsumed schedule is a suffix of the supplied one,
and the bytes written are covered by the starting balance plus the consumed
elapsed time times the refill rate. -/
def masterProp (bps : ℚ) (sig : Sig) (tokens : ℚ) (o : RunOut) : Prop :=
  (∀ ev ∈ o.evs, evTokensOk (2 * bps) ev ∧ evShapeOk ev) ∧
  0 ≤ o.tEnd ∧ o.tEnd ≤ 2 * bps ∧
  o.rest <:+ sig ∧
  (writtenBytes o.evs : ℚ) + credit o.res o.tEnd ≤
    tokens + (elapsedSum sig - elapsedSum o.rest) * bps

theorem rat_floor_eq_floor (q : ℚ) : Rat.floor q = ⌊q⌋ := by
  rw [Rat.floor_def', Rat.floor_def]

theorem pyInt_le_self {q : ℚ} (h : 0 < pyInt q) : (pyInt q : ℚ) ≤ q := by
  unfold pyInt at h ⊢
  split_ifs at h ⊢ with hq
  · rw [rat_floor_eq_floor, Int.floor_neg] at h
    have hc : ⌈q⌉ ≤ 0 := Int.ceil_le.mpr (by exact_mod_cast hq.le)
    omega
  · rw [rat_floor_eq_floor]
    exact Int.floor_le q

theorem grant_cast_le {t : ℚ} {rem : ℕ} (h : 0 < grant t rem) :
    (grant t rem : ℚ) ≤ min (min t max_chunk) (rem : ℚ) :=
  pyInt_le_self h

theorem grant_le_tokens {t : ℚ} {rem : ℕ} (h : 0 < grant t rem) :
    (grant t rem : ℚ) ≤ t :=
  le_trans (grant_cast_le h) (le_trans (min_le_left _ _) (min_le_left _ _))

theorem grant_toNat_le_max {t : ℚ} {rem : ℕ} (h : 0 < grant t rem) :
    (grant t rem).toNat ≤ 16384 := by
  have h1 : (grant t rem : ℚ) ≤ max_chunk :=
    le_trans (grant_cast_le h) (le_trans (min_le_left _ _) (min_le_right _ _))
  have h2 : grant t rem ≤ 16384 := by
    rw [max_chunk] at h1
    norm_num at h1
    exact_mod_cast h1
  omega

theorem grant_toNat_le_rem {t : ℚ} {rem : ℕ} (h : 0 < grant t rem) :
    (grant t rem).toNat ≤ rem := by
  have h1 : (grant t rem : ℚ) ≤ (rem : ℚ) :=
    le_trans (grant_cast_le h) (min_le_right _ _)
  have h2 : grant t rem ≤ (rem : ℤ) := by exact_mod_cast h1
  omega

theorem grant_toNat_cast {t : ℚ} {rem : ℕ} (h : 0 < grant t rem) :
    ((grant t rem).toNat : ℚ) = (grant t rem : ℚ) := by
  have : ((grant t rem).toNat : ℤ) = grant t rem := Int.toNat_of_nonneg h.le
  exact_mod_cast this

theorem refill_nonneg {bps tokens elapsed : ℚ} (hb : 0 < bps)
    (h0 : 0 ≤ tokens) (he : 0 ≤ elapsed) : 0 ≤ refill bps tokens elapsed := by
  unfold refill
  have := mul_nonneg he hb.le
  split_ifs with h <;> linarith

theorem refill_le_cap {bps tokens elapsed : ℚ} :
    refill bps tokens elapsed ≤ 2 * bps := by
  unfold refill
  split_ifs with h <;> linarith

theorem refill_le {bps tokens elapsed : ℚ} :
    refill bps tokens elapsed ≤ tokens + elapsed * bps := by
  unfold refill
  split_ifs with h <;> linarith

theorem elapsedSum_cons (p : ℚ × Option PyExc) (s : Sig) :
    elapsedSum (p :: s) = p.1 + elapsedSum s := by
  simp [elapsedSum]

theorem elapsedSum_nonneg {sig : Sig} (h : ∀ p ∈ sig, 0 ≤ p.1) :
    0 ≤ elapsedSum sig := by
  unfold elapsedSum
  apply List.sum_nonneg
  intro x hx
  obtain ⟨p, hp, rfl⟩ := List.mem_map.mp hx
  exact h p hp

theorem credit_nonneg (r : RunRes) {t : ℚ} (h : 0 ≤ t) : 0 ≤ credit r t := by
  cases r <;> simp [credit] <;> exact h

theorem innerLoop_master {bps : ℚ} (hb : 0 < bps) (data : List ℕ) :
    ∀ (sig : Sig) (tokens : ℚ) (idx : ℕ),
      0 ≤ tokens → tokens ≤ 2 * bps → (∀ p ∈ sig, 0 ≤ p.1) →
      masterProp bps sig tokens (innerLoop bps data sig tokens idx) := by
  intro sig
  induction sig with
  | nil =>
    intro tokens idx h0 hcap _
    unfold masterProp
    rw [innerLoop]
    split_ifs with hidx <;>
      exact ⟨by simp, h0, hcap, List.suffix_refl _,
        by simp [writtenBytes, credit, elapsedSum]⟩
  | cons hd tl ih =>
    obtain ⟨e, exc⟩ := hd
    intro tokens idx h0 hcap hs
    have he : 0 ≤ e := hs (e, exc) (List.mem_cons_self _ _)
    have hs' : ∀ p ∈ tl, 0 ≤ p.1 := fun p hp => hs p (List.mem_cons_of_mem _ hp)
    have hebps : 0 ≤ e * bps := mul_nonneg he hb.le
    unfold masterProp
    rw [innerLoop]
    by_cases hidx : idx < data.length
    · rw [if_pos hidx]
      dsimp only
      have h2a : 0 ≤ refill bps tokens e := refill_nonneg hb h0 he
      have h2b : refill bps tokens e ≤ 2 * bps := refill_le_cap
      have h2c : refill bps tokens e ≤ tokens + e * bps := refill_le
      by_cases hal : grant (refill bps tokens e) (data.length - idx) ≤ 0
      · rw [if_pos hal]
        cases exc with
        | some ex =>
          refine ⟨?_, h2a, h2b, List.suffix_cons _ _, ?_⟩
          · intro ev hev
            simp only [List.mem_singleton] at hev
            subst hev
            exact ⟨⟨h2a, h2b⟩, hal⟩
          · simp only [writtenBytes, credit, elapsedSum_cons]
            have hsub : e + elapsedSum tl - elapsedSum tl = e := by ring
            rw [hsub]
            push_cast
            linarith
        | none =>
          obtain ⟨IH1, IH2, IH3, IH4, IH5⟩ :=
            ih (refill bps tokens e) idx h2a h2b hs'
          refine ⟨?_, IH2, IH3, IH4.trans (List.suffix_cons _ _), ?_⟩
          · intro ev hev
            rcases List.mem_cons.mp hev with hev | hev
            · subst hev
              exact ⟨⟨h2a, h2b⟩, hal⟩
            · exact IH1 ev hev
          · simp only [writtenBytes, elapsedSum_cons]
            have expand :
                (e + elapsedSum tl -
                  elapsedSum (innerLoop bps data tl (refill bps tokens e) idx).rest)
                  * bps =
                e * bps + (elapsedSum tl -
                  elapsedSum (innerLoop bps data tl (refill bps tokens e) idx).rest)
                  * bps := by ring
            rw [expand]
            linarith
      · rw [if_neg hal]
        have hpos : 0 < grant (refill bps tokens e) (data.length - idx) := by
          omega
        have hltok : ((grant (refill bps tokens e) (data.length - idx)).toNat : ℚ)
            = (grant (refill bps tokens e) (data.length - idx) : ℚ) :=
          grant_toNat_cast hpos
        have hchunklen :
            ((data.drop idx).take
              (grant (refill bps tokens e) (data.length - idx)).toNat).length =
            (grant (refill bps tokens e) (data.length - idx)).toNat := by
          have hr := grant_toNat_le_rem hpos
          simp only [List.length_take, List.length_drop]
          omega
        have hcastle : (((data.drop idx).take
              (grant (refill bps tokens e) (data.length - idx)).toNat).length : ℚ)
            ≤ refill bps tokens e := by
          rw [hchunklen]
          rw [hltok]
          exact grant_le_tokens hpos
        have hshape : evShapeOk (Ev.write (refill bps tokens e)
            (data.length - idx)
            ((data.drop idx).take
              (grant (refill bps tokens e) (data.length - idx)).toNat)) := by
          refine ⟨hchunklen, ?_, ?_, hpos⟩
          · rw [hchunklen]; exact grant_toNat_le_max hpos
          · rw [hchunklen]; exact grant_toNat_le_rem hpos
        cases exc with
        | some ex =>
          cases ex with
          | connReset =>
            refine ⟨?_, h2a, h2b, List.suffix_cons _ _, ?_⟩
            · intro ev hev
              simp only [List.mem_singleton] at hev
              subst hev
              exact ⟨⟨h2a, h2b, hcastle⟩, hshape⟩
            · simp only [writtenBytes, credit, elapsedSum_cons]
              have hsub : e + elapsedSum tl - elapsedSum tl = e := by ring
              rw [hsub]
              push_cast
              push_cast at hcastle
              linarith
          | cancelled =>
            refine ⟨?_, h2a, h2b, List.suffix_cons _ _, ?_⟩
            · intro ev hev
              simp only [List.mem_singleton] at hev
              subst hev
              exact ⟨⟨h2a, h2b, hcastle⟩, hshape⟩
            · simp only [writtenBytes, credit, elapsedSum_cons]
              have hsub : e + elapsedSum tl - elapsedSum tl = e := by ring
              rw [hsub]
              push_cast
              push_cast at hcastle
              linarith
          | other =>
            refine ⟨?_, h2a, h2b, List.suffix_cons _ _, ?_⟩
            · intro ev hev
              simp only [List.mem_singleton] at hev
              subst hev
              exact ⟨⟨h2a, h2b, hcastle⟩, hshape⟩
            · simp only [writtenBytes, credit, elapsedSum_cons]
              have hsub : e + elapsedSum tl - elapsedSum tl = e := by ring
              rw [hsub]
              push_cast
              push_cast at hcastle
              linarith
        | none =>
          have hg0 : 0 ≤ refill bps tokens e -
              (grant (refill bps tokens e) (data.length - idx) : ℚ) := by
            have := grant_le_tokens hpos
            linarith
          have hgcap : refill bps tokens e -
              (grant (refill bps tokens e) (data.length - idx) : ℚ) ≤ 2 * bps := by
            have hnn : (0:ℚ) ≤
                (grant (refill bps tokens e) (data.length - idx) : ℚ) := by
              exact_mod_cast hpos.le
            linarith
          obtain ⟨IH1, IH2, IH3, IH4, IH5⟩ :=
            ih (refill bps tokens e -
                (grant (refill bps tokens e) (data.length - idx) : ℚ))
              (idx + (grant (refill bps tokens e) (data.length - idx)).toNat)
              hg0 hgcap hs'
          refine ⟨?_, IH2, IH3, IH4.trans (List.suffix_cons _ _), ?_⟩
          · intro ev hev
            rcases List.mem_cons.mp hev with hev | hev
            · subst hev
              exact ⟨⟨h2a, h2b, hcastle⟩, hshape⟩
            · exact IH1 ev hev
          · simp only [writtenBytes, elapsedSum_cons]
            have expand :
                (e + elapsedSum tl -
                  elapsedSum ((innerLoop bps data tl
                    (refill bps tokens e -
                      (grant (refill bps tokens e) (data.length - idx) : ℚ))
                    (idx + (grant (refill bps tokens e)
                      (data.length - idx)).toNat)).rest)) * bps =
                e * bps + (elapsedSum tl -
                  elapsedSum ((innerLoop bps data tl
                    (refill bps tokens e -
                      (grant (refill bps tokens e) (data.length - idx) : ℚ))
                    (idx + (grant (refill bps tokens e)
                      (data.length - idx)).toNat)).rest)) * bps := by ring
            rw [expand]
            push_cast
            rw [hchunklen] at *
            push_cast [hltok] at *
            linarith
    · rw [if_neg hidx]
      exact ⟨by simp, h0, hcap, List.suffix_refl _,
        by simp [writtenBytes, credit, elapsedSum]⟩

theorem writtenBytes_append (l₁ l₂ : List Ev) :
    writtenBytes (l₁ ++ l₂) = writtenBytes l₁ + writtenBytes l₂ := by
  induction l₁ with
  | nil => simp [writtenBytes]
  | cons hd tl ihl =>
    cases hd <;> simp [writtenBytes, ihl] <;> omega

theorem bodyRun_master {bps : ℚ} (hb : 0 < bps) :
    ∀ (reads : List ReadEv) (sig : Sig) (tokens : ℚ),
      0 ≤ tokens → tokens ≤ 2 * bps → (∀ p ∈ sig, 0 ≤ p.1) →
      masterProp bps sig tokens (bodyRun bps reads tokens sig) := by
  intro reads
  induction reads with
  | nil =>
    intro sig tokens h0 hcap _
    unfold masterProp
    rw [bodyRun]
    exact ⟨by simp, h0, hcap, List.suffix_refl _,
      by simp [writtenBytes, credit]⟩
  | cons r rs ih =>
    intro sig tokens h0 hcap hs
    cases r with
    | raiseE e =>
      unfold masterProp
      rw [bodyRun]
      exact ⟨by simp, h0, hcap, List.suffix_refl _,
        by simp [writtenBytes, credit]; linarith⟩
    | data b =>
      unfold masterProp
      rw [bodyRun]
      by_cases hemp : b.isEmpty
      · rw [if_pos hemp]
        refine ⟨?_, h0, hcap, List.suffix_refl _, ?_⟩
        · intro ev hev
          simp only [List.mem_singleton] at hev
          subst hev
          exact ⟨trivial, trivial⟩
        · simp [writtenBytes, credit]
      · rw [if_neg hemp]
        dsimp only
        obtain ⟨IL1, IL2, IL3, IL4, IL5⟩ :=
          innerLoop_master hb b sig tokens 0 h0 hcap hs
        have hs2 : ∀ p ∈ (innerLoop bps b sig tokens 0).rest, 0 ≤ p.1 :=
          fun p hp => hs p (IL4.subset hp)
        split
        case _ heq =>
          rw [heq] at IL5
          simp only [credit] at IL5
          obtain ⟨IH1, IH2, IH3, IH4, IH5⟩ :=
            ih (innerLoop bps b sig tokens 0).rest
              (innerLoop bps b sig tokens 0).tEnd IL2 IL3 hs2
          refine ⟨?_, IH2, IH3, IH4.trans IL4, ?_⟩
          · intro ev hev
            rcases List.mem_cons.mp hev with hev | hev
            · subst hev
              exact ⟨trivial, trivial⟩
            · rcases List.mem_append.mp hev with hev | hev
              · exact IL1 ev hev
              · exact IH1 ev hev
          · simp only [writtenBytes, List.append_eq, writtenBytes_append]
            push_cast
            have expand :
                (elapsedSum sig -
                  elapsedSum ((bodyRun bps rs (innerLoop bps b sig tokens 0).tEnd
                    (innerLoop bps b sig tokens 0).rest).rest)) * bps =
                (elapsedSum sig -
                  elapsedSum ((innerLoop bps b sig tokens 0).rest)) * bps +
                (elapsedSum ((innerLoop bps b sig tokens 0).rest) -
                  elapsedSum ((bodyRun bps rs (innerLoop bps b sig tokens 0).tEnd
                    (innerLoop bps b sig tokens 0).rest).rest)) * bps := by
              ring
            rw [expand]
            linarith
        all_goals {
          refine ⟨?_, IL2, IL3, IL4, ?_⟩
          · intro ev hev
            rcases List.mem_cons.mp hev with hev | hev
            · subst hev
              exact ⟨trivial, trivial⟩
            · exact IL1 ev hev
          · dsimp only
            simp only [writtenBytes]
            exact IL5
        }

theorem chunksOf_append (l₁ l₂ : List Ev) :
    chunksOf (l₁ ++ l₂) = chunksOf l₁ ++ chunksOf l₂ := by
  induction l₁ with
  | nil => simp [chunksOf]
  | cons hd tl ihl =>
    cases hd <;> simp [chunksOf, ihl]

theorem innerLoop_rest_suffix {bps : ℚ} (data : List ℕ) :
    ∀ (sig : Sig) (tokens : ℚ) (idx : ℕ),
      (innerLoop bps data sig tokens idx).rest <:+ sig := by
  intro sig
  induction sig with
  | nil =>
    intro tokens idx
    rw [innerLoop]
    split_ifs <;> exact List.nil_suffix
  | cons hd tl ih =>
    obtain ⟨e, exc⟩ := hd
    intro tokens idx
    rw [innerLoop]
    by_cases hidx : idx < data.length
    · rw [if_pos hidx]
      dsimp only
      by_cases hal : grant (refill bps tokens e) (data.length - idx) ≤ 0
      · rw [if_pos hal]
        cases exc with
        | some ex => exact List.suffix_cons _ _
        | none => exact (ih _ _).trans (List.suffix_cons _ _)
      · rw [if_neg hal]
        cases exc with
        | some ex => cases ex <;> exact List.suffix_cons _ _
        | none => exact (ih _ _).trans (List.suffix_cons _ _)
    · rw [if_neg hidx]

theorem innerLoop_join {bps : ℚ} (data : List ℕ) :
    ∀ (sig : Sig) (tokens : ℚ) (idx : ℕ),
      (∀ p ∈ sig, p.2 = none) →
      ((innerLoop bps data sig tokens idx).res = .flushed ∨
        (innerLoop bps data sig tokens idx).res = .clockOut) ∧
      ((innerLoop bps data sig tokens idx).res = .flushed →
        (chunksOf (innerLoop bps data sig tokens idx).evs).flatten =
          data.drop idx) := by
  intro sig
  induction sig with
  | nil =>
    intro tokens idx _
    rw [innerLoop]
    split_ifs with hidx
    · exact ⟨Or.inr rfl, by intro h; exact absurd h (by simp)⟩
    · refine ⟨Or.inl rfl, fun _ => ?_⟩
      have : data.length ≤ idx := by omega
      simp [chunksOf, List.drop_eq_nil_of_le this]
  | cons hd tl ih =>
    obtain ⟨e, exc⟩ := hd
    intro tokens idx hexc
    have hx : exc = none := hexc (e, exc) (List.mem_cons_self _ _)
    subst hx
    have hexc' : ∀ p ∈ tl, p.2 = none :=
      fun p hp => hexc p (List.mem_cons_of_mem _ hp)
    rw [innerLoop]
    by_cases hidx : idx < data.length
    · rw [if_pos hidx]
      dsimp only
      by_cases hal : grant (refill bps tokens e) (data.length - idx) ≤ 0
      · rw [if_pos hal]
        obtain ⟨IH1, IH2⟩ := ih (refill bps tokens e) idx hexc'
        refine ⟨IH1, fun hres => ?_⟩
        simp only [chunksOf]
        exact IH2 hres
      · rw [if_neg hal]
        have hpos : 0 < grant (refill bps tokens e) (data.length - idx) := by
          omega
        obtain ⟨IH1, IH2⟩ := ih
          (refill bps tokens e -
            (grant (refill bps tokens e) (data.length - idx) : ℚ))
          (idx + (grant (refill bps tokens e) (data.length - idx)).toNat) hexc'
        refine ⟨IH1, fun hres => ?_⟩
        simp only [chunksOf, List.flatten_cons]
        rw [IH2 hres]
        have hdd : data.drop
            (idx + (grant (refill bps tokens e) (data.length - idx)).toNat) =
            (data.drop idx).drop
              (grant (refill bps tokens e) (data.length - idx)).toNat := by
          rw [List.drop_drop]
        rw [hdd]
        exact List.take_append_drop _ _
    · rw [if_neg hidx]
      refine ⟨Or.inl rfl, fun _ => ?_⟩
      have : data.length ≤ idx := by omega
      simp [chunksOf, List.drop_eq_nil_of_le this]

theorem bodyRun_join {bps : ℚ} :
    ∀ (datas : List (List ℕ)) (sig : Sig) (tokens : ℚ),
      (∀ p ∈ sig, p.2 = none) →
      (bodyRun bps (datas.map ReadEv.data) tokens sig).res = .finished →
      (chunksOf (bodyRun bps (datas.map ReadEv.data) tokens sig).evs).flatten =
        (datas.takeWhile (fun b => !b.isEmpty)).flatten := by
  intro datas
  induction datas with
  | nil =>
    intro sig tokens _ _
    rw [List.map_nil, bodyRun]
    simp [chunksOf]
  | cons b datas' ih =>
    intro sig tokens hexc hfin
    rw [List.map_cons, bodyRun] at hfin ⊢
    by_cases hemp : b.isEmpty
    · rw [if_pos hemp] at hfin ⊢
      have hb : b = [] := List.isEmpty_iff.mp hemp
      subst hb
      simp [chunksOf]
    · rw [if_neg hemp] at hfin ⊢
      dsimp only at hfin ⊢
      have hexc2 : ∀ p ∈ (innerLoop bps b sig tokens 0).rest, p.2 = none :=
        fun p hp => hexc p ((innerLoop_rest_suffix b sig tokens 0).subset hp)
      obtain ⟨hor, hjoin⟩ := innerLoop_join b sig tokens 0 hexc
      rcases hor with hresf | hresc
      · rw [hresf] at hfin ⊢
        dsimp only at hfin ⊢
        have hrec := ih (innerLoop bps b sig tokens 0).rest
          (innerLoop bps b sig tokens 0).tEnd hexc2 hfin
        simp only [chunksOf, List.append_eq, chunksOf_append,
          List.flatten_append]
        rw [hjoin hresf, hrec, List.drop_zero]
        rw [List.takeWhile_cons_of_pos (by simp [hemp]), List.flatten_cons]
      · rw [hresc] at hfin
        dsimp only at hfin
        exact absurd hfin (by simp)

/-- C9: for every configured rate value `rate_kbps`, the limiter's refill
rate in bytes per second equals `rate_kbps * 1000 / 8` (1000 bits per
kilobit, not 1024), so round kbps inputs map to round byte rates: 8 kbps is
exactly 1000 bytes/second. -/
theorem c9_kbps_conversion (rate_kbps : ℚ) :
    bytes_per_second rate_kbps = rate_kbps * 1000 / 8 ∧
    KBPS_TO_BPS = 1000 ∧ bytes_per_second 8 = 1000 := by
  refine ⟨by rw [bytes_per_second, KBPS_TO_BPS], rfl, ?_⟩
  norm_num [bytes_per_second, KBPS_TO_BPS]

/-- C4: for every relay invocation with configured rate ≤ 0, the relay drains
and closes its writer and returns immediately: its action list is exactly the
drain and the close, its loop trace is empty (so the source is never read and
no payload byte is ever written), and no exception propagates. -/
theorem c4_nonpositive_rate_refused (rate_kbps : ℚ) (reads : List ReadEv)
    (sig : Sig) (hr : rate_kbps ≤ 0) :
    (token_bucket_copy rate_kbps reads sig).acts =
      [TopAct.drainW, TopAct.closeW] ∧
    (token_bucket_copy rate_kbps reads sig).trace = [] ∧
    (token_bucket_copy rate_kbps reads sig).exc = none := by
  unfold token_bucket_copy
  rw [if_pos hr]
  exact ⟨rfl, rfl, rfl⟩

theorem c4_witness :
    (0 : ℚ) ≤ 0 ∧
    ((token_bucket_copy 0 [ReadEv.data [1]] [(1, none)]).acts =
      [TopAct.drainW, TopAct.closeW] ∧
    (token_bucket_copy 0 [ReadEv.data [1]] [(1, none)]).trace = [] ∧
    (token_bucket_copy 0 [ReadEv.data [1]] [(1, none)]).exc = none) :=
  ⟨le_refl 0, c4_nonpositive_rate_refused 0 [ReadEv.data [1]] [(1, none)]
    (le_refl 0)⟩

/-- C7: the relay propagates no exception other than cancellation: its
propagated exception is always `none` or cancellation; it is cancellation
exactly when the loop body raised cancellation (so cancellation is never
swallowed); a `ConnectionResetError` during the drain of a write
(`resetStop`) and a normal end (`finished`, reached by a zero-length read)
propagate nothing. -/
theorem c7_exception_boundary (rate_kbps : ℚ) (reads : List ReadEv)
    (sig : Sig) :
    ((token_bucket_copy rate_kbps reads sig).exc = none ∨
      (token_bucket_copy rate_kbps reads sig).exc = some PyExc.cancelled) ∧
    ((token_bucket_copy rate_kbps reads sig).exc = some PyExc.cancelled ↔
      (token_bucket_copy rate_kbps reads sig).bodyRes =
        RunRes.raised PyExc.cancelled) ∧
    ((token_bucket_copy rate_kbps reads sig).bodyRes = RunRes.resetStop →
      (token_bucket_copy rate_kbps reads sig).exc = none) ∧
    ((token_bucket_copy rate_kbps reads sig).bodyRes = RunRes.finished →
      (token_bucket_copy rate_kbps reads sig).exc = none) := by
  unfold token_bucket_copy
  split_ifs with h
  · simp
  · dsimp only
    generalize (bodyRun (bytes_per_second rate_kbps) reads
      (bytes_per_second rate_kbps) sig).res = r
    cases r with
    | flushed => simp [excHandler]
    | finished => simp [excHandler]
    | clockOut => simp [excHandler]
    | resetStop => simp [excHandler]
    | raised e => cases e <;> simp [excHandler]

theorem c7_witness :
    ((token_bucket_copy 8 [ReadEv.raiseE PyExc.cancelled] []).exc = none ∨
      (token_bucket_copy 8 [ReadEv.raiseE PyExc.cancelled] []).exc =
        some PyExc.cancelled) ∧
    ((token_bucket_copy 8 [ReadEv.raiseE PyExc.cancelled] []).exc =
        some PyExc.cancelled ↔
      (token_bucket_copy 8 [ReadEv.raiseE PyExc.cancelled] []).bodyRes =
        RunRes.raised PyExc.cancelled) ∧
    ((token_bucket_copy 8 [ReadEv.raiseE PyExc.cancelled] []).bodyRes =
        RunRes.resetStop →
      (token_bucket_copy 8 [ReadEv.raiseE PyExc.cancelled] []).exc = none) ∧
    ((token_bucket_copy 8 [ReadEv.raiseE PyExc.cancelled] []).bodyRes =
        RunRes.finished →
      (token_bucket_copy 8 [ReadEv.raiseE PyExc.cancelled] []).exc = none) :=
  c7_exception_boundary 8 [ReadEv.raiseE PyExc.cancelled] []

/-- C2: for every relay started with rate > 0, hence refill rate
`bytes_per_second rate_kbps > 0`, and any sequence of reads, grants and
nonnegative elapsed-time observations, the token balance lies in
`[0, capacity]` with `capacity = 2 * bytes_per_second` at every observation
point of the trace (including zero elapsed time and arbitrarily large gaps),
the initial balance `bytes_per_second` also lies in that range, and so does
the final balance. -/
theorem c2_token_bucket_invariant (rate_kbps : ℚ) (reads : List ReadEv)
    (sig : Sig) (hr : 0 < rate_kbps) (hs : ∀ p ∈ sig, 0 ≤ p.1) :
    (0 ≤ bytes_per_second rate_kbps ∧
      bytes_per_second rate_kbps ≤ 2 * bytes_per_second rate_kbps) ∧
    (∀ ev ∈ (token_bucket_copy rate_kbps reads sig).trace,
      evTokensOk (2 * bytes_per_second rate_kbps) ev) ∧
    0 ≤ (token_bucket_copy rate_kbps reads sig).finalTokens ∧
    (token_bucket_copy rate_kbps reads sig).finalTokens ≤
      2 * bytes_per_second rate_kbps := by
  have hb : 0 < bytes_per_second rate_kbps := by
    unfold bytes_per_second KBPS_TO_BPS
    positivity
  unfold token_bucket_copy
  rw [if_neg (not_le.mpr hr)]
  dsimp only
  obtain ⟨M1, M2, M3, _, _⟩ :=
    bodyRun_master hb reads sig (bytes_per_second rate_kbps) hb.le
      (by linarith) hs
  exact ⟨⟨hb.le, by linarith⟩, fun ev hev => (M1 ev hev).1, M2, M3⟩

theorem c2_witness :
    (0 : ℚ) < 8 ∧
    (∀ p ∈ [((0 : ℚ), (none : Option PyExc)), (2, none)], 0 ≤ p.1) ∧
    ((0 ≤ bytes_per_second 8 ∧
      bytes_per_second 8 ≤ 2 * bytes_per_second 8) ∧
    (∀ ev ∈ (token_bucket_copy 8 [ReadEv.data [1, 2, 3]]
        [((0 : ℚ), (none : Option PyExc)), (2, none)]).trace,
      evTokensOk (2 * bytes_per_second 8) ev) ∧
    0 ≤ (token_bucket_copy 8 [ReadEv.data [1, 2, 3]]
        [((0 : ℚ), (none : Option PyExc)), (2, none)]).finalTokens ∧
    (token_bucket_copy 8 [ReadEv.data [1, 2, 3]]
        [((0 : ℚ), (none : Option PyExc)), (2, none)]).finalTokens ≤
      2 * bytes_per_second 8) :=
  ⟨by norm_num, by decide,
    c2_token_bucket_invariant 8 [ReadEv.data [1, 2, 3]]
      [((0 : ℚ), (none : Option PyExc)), (2, none)] (by norm_num) (by decide)⟩

/-- C3: for every relay execution with rate > 0 and nonnegative elapsed-time
observations, the cumulative number of payload bytes written never exceeds
the initial token allowance (`bytes_per_second`, one second of traffic) plus
the total observed elapsed time times the refill rate — the formal content of
the rate-convergence claim (the ±10 percent convergence itself is a
wall-clock property of the scheduler). -/
theorem c3_written_bytes_bound (rate_kbps : ℚ) (reads : List ReadEv)
    (sig : Sig) (hr : 0 < rate_kbps) (hs : ∀ p ∈ sig, 0 ≤ p.1) :
    (writtenBytes (token_bucket_copy rate_kbps reads sig).trace : ℚ) ≤
      bytes_per_second rate_kbps +
        elapsedSum sig * bytes_per_second rate_kbps := by
  have hb : 0 < bytes_per_second rate_kbps := by
    unfold bytes_per_second KBPS_TO_BPS
    positivity
  unfold token_bucket_copy
  rw [if_neg (not_le.mpr hr)]
  dsimp only
  obtain ⟨_, M2, _, M4, M5⟩ :=
    bodyRun_master hb reads sig (bytes_per_second rate_kbps) hb.le
      (by linarith) hs
  have hcred := credit_nonneg
    (bodyRun (bytes_per_second rate_kbps) reads
      (bytes_per_second rate_kbps) sig).res M2
  have hrest : 0 ≤ elapsedSum (bodyRun (bytes_per_second rate_kbps) reads
      (bytes_per_second rate_kbps) sig).rest :=
    elapsedSum_nonneg (fun p hp => hs p (M4.subset hp))
  have hrb : 0 ≤ elapsedSum (bodyRun (bytes_per_second rate_kbps) reads
      (bytes_per_second rate_kbps) sig).rest * bytes_per_second rate_kbps :=
    mul_nonneg hrest hb.le
  rw [sub_mul] at M5
  linarith

theorem c3_witness :
    (0 : ℚ) < 8 ∧
    (∀ p ∈ [((0 : ℚ), (none : Option PyExc)), (2, none)], 0 ≤ p.1) ∧
    (writtenBytes (token_bucket_copy 8 [ReadEv.data [1, 2, 3]]
        [((0 : ℚ), (none : Option PyExc)), (2, none)]).trace : ℚ) ≤
      bytes_per_second 8 +
        elapsedSum [((0 : ℚ), (none : Option PyExc)), (2, none)] *
          bytes_per_second 8 :=
  ⟨by norm_num, by decide,
    c3_written_bytes_bound 8 [ReadEv.data [1, 2, 3]]
      [((0 : ℚ), (none : Option PyExc)), (2, none)] (by norm_num) (by decide)⟩

/-- C6: on every iteration of the relay's inner loop with rate > 0, the
written amount equals `int(min(tokens, max_chunk, rem))` — the grant — with
`max_chunk = 16 * 1024`, so no single write exceeds 16384 bytes, the
remaining unsent bytes, or the current token balance, and an iteration whose
grant is not positive sleeps instead of writing. -/
theorem c6_grant_discipline (rate_kbps : ℚ) (reads : List ReadEv) (sig : Sig)
    (hr : 0 < rate_kbps) (hs : ∀ p ∈ sig, 0 ≤ p.1) :
    ∀ ev ∈ (token_bucket_copy rate_kbps reads sig).trace, evShapeOk ev := by
  have hb : 0 < bytes_per_second rate_kbps := by
    unfold bytes_per_second KBPS_TO_BPS
    positivity
  unfold token_bucket_copy
  rw [if_neg (not_le.mpr hr)]
  dsimp only
  obtain ⟨M1, _, _, _, _⟩ :=
    bodyRun_master hb reads sig (bytes_per_second rate_kbps) hb.le
      (by linarith) hs
  exact fun ev hev => (M1 ev hev).2

theorem c6_witness :
    (0 : ℚ) < 8 ∧
    (∀ p ∈ [((0 : ℚ), (none : Option PyExc)), (2, none)], 0 ≤ p.1) ∧
    (∀ ev ∈ (token_bucket_copy 8 [ReadEv.data [1, 2, 3]]
        [((0 : ℚ), (none : Option PyExc)), (2, none)]).trace, evShapeOk ev) :=
  ⟨by norm_num, by decide,
    c6_grant_discipline 8 [ReadEv.data [1, 2, 3]]
      [((0 : ℚ), (none : Option PyExc)), (2, none)] (by norm_num) (by decide)⟩

/-- C5: for every relay execution with rate > 0 that ends normally
(`finished`: EOF or a zero-length read) with no exception injected at any
await point, the concatenation of the chunks written to the sink equals the
concatenation of the buffers read from the source up to the first zero-length
read, in order — no loss, duplication or reordering; each read buffer (up to
the 8 KiB read size) is fully flushed before the next read by construction of
the loop. -/
theorem c5_stream_preserved (rate_kbps : ℚ) (datas : List (List ℕ))
    (sig : Sig) (hr : 0 < rate_kbps)
    (h8 : ∀ b ∈ datas, b.length ≤ 8192)
    (hexc : ∀ p ∈ sig, p.2 = none)
    (hfin : (token_bucket_copy rate_kbps (datas.map ReadEv.data) sig).bodyRes =
      RunRes.finished) :
    (chunksOf (token_bucket_copy rate_kbps
        (datas.map ReadEv.data) sig).trace).flatten =
      (datas.takeWhile (fun b => !b.isEmpty)).flatten := by
  unfold token_bucket_copy at hfin ⊢
  rw [if_neg (not_le.mpr hr)] at hfin ⊢
  dsimp only at hfin ⊢
  exact bodyRun_join datas sig (bytes_per_second rate_kbps) hexc hfin

theorem c5_witness :
    (0 : ℚ) < 800 ∧
    (∀ b ∈ [[1, 2, 3], [4, 5]], List.length b ≤ 8192) ∧
    (∀ p ∈ [((0 : ℚ), (none : Option PyExc)), (0, none)], p.2 = none) ∧
    (token_bucket_copy 800 ([[1, 2, 3], [4, 5]].map ReadEv.data)
        [((0 : ℚ), (none : Option PyExc)), (0, none)]).bodyRes =
      RunRes.finished ∧
    (chunksOf (token_bucket_copy 800 ([[1, 2, 3], [4, 5]].map ReadEv.data)
        [((0 : ℚ), (none : Option PyExc)), (0, none)]).trace).flatten =
      ([[1, 2, 3], [4, 5]].takeWhile (fun b => !b.isEmpty)).flatten := by
  have hfin : (token_bucket_copy 800 ([[1, 2, 3], [4, 5]].map ReadEv.data)
      [((0 : ℚ), (none : Option PyExc)), (0, none)]).bodyRes =
      RunRes.finished := by
    norm_num [token_bucket_copy, bodyRun, innerLoop, refill, grant, pyInt,
      bytes_per_second, KBPS_TO_BPS, max_chunk, min_def, rat_floor_eq_floor]
  exact ⟨by norm_num, by decide, by decide, hfin,
    c5_stream_preserved 800 [[1, 2, 3], [4, 5]]
      [((0 : ℚ), (none : Option PyExc)), (0, none)] (by norm_num) (by decide)
      (by decide) hfin⟩

/-- C1 is false as stated: the claim says the 200 Connection established
status line is written only after the target connection has been opened
successfully and never before the attempt, but on a concrete CONNECT request
whose connection attempt fails the proxy's client-visible trace begins with
the 200 write and its drain and only then attempts the connection (and then
also writes the 502). -/
theorem c1_counterexample :
    CAct.writeC resp200 ∈
      handle_client "CONNECT example.com:443 HTTP/1.1\r\n".data
        ["\r\n".data] false ∧
    (handle_client "CONNECT example.com:443 HTTP/1.1\r\n".data
        ["\r\n".data] false).take 3 =
      [CAct.writeC resp200, CAct.drainC,
        CAct.connectA "example.com".data 443] := by
  decide

/-- C1 (amended): for every CONNECT request whose target connection attempt
fails, the proxy writes exactly one 502 status line after the attempt and
closes the client connection without starting the relay tasks (no tunnel);
however the 200 Connection established status line is written to the client
unconditionally before the connection attempt, not after a successful open,
so a failing CONNECT receives the 200 line followed by the 502 line. -/
theorem c1_connect_failure_trace (header : PyStr) (rest : List PyStr)
    (h2 : 2 ≤ (pySplitWs (pyStrip header)).length)
    (hm : pyUpper ((pySplitWs (pyStrip header)).getD 0 []) = "CONNECT".data) :
    handle_client header rest false =
      [CAct.writeC resp200, CAct.drainC,
        CAct.connectA
          (connect_target ((pySplitWs (pyStrip header)).getD 1 [])).1
          (connect_target ((pySplitWs (pyStrip header)).getD 1 [])).2,
        CAct.writeC resp502, CAct.drainC, CAct.closeC] := by
  unfold handle_client
  dsimp only
  have hlen : ¬ (pySplitWs (pyStrip header)).length < 2 := by omega
  rw [if_neg hlen, if_pos hm]
  simp [handle_tunnel]

theorem c1_witness :
    2 ≤ (pySplitWs (pyStrip "CONNECT example.com:443 HTTP/1.1\r\n".data)).length ∧
    pyUpper ((pySplitWs
      (pyStrip "CONNECT example.com:443 HTTP/1.1\r\n".data)).getD 0 []) =
      "CONNECT".data ∧
    handle_client "CONNECT example.com:443 HTTP/1.1\r\n".data
        ["\r\n".data] false =
      [CAct.writeC resp200, CAct.drainC,
        CAct.connectA
          (connect_target ((pySplitWs
            (pyStrip "CONNECT example.com:443 HTTP/1.1\r\n".data)).getD 1 [])).1
          (connect_target ((pySplitWs
            (pyStrip "CONNECT example.com:443 HTTP/1.1\r\n".data)).getD 1 [])).2,
        CAct.writeC resp502, CAct.drainC, CAct.closeC] :=
  ⟨by decide, by decide,
    c1_connect_failure_trace "CONNECT example.com:443 HTTP/1.1\r\n".data
      ["\r\n".data] (by decide) (by decide)⟩

/-- C8: for every non-CONNECT request whose captured header block contains no
line beginning `Host:` (matched case-insensitively), the client-visible trace
is exactly one 400 status line, a drain, and the close — in particular no
outbound connection is attempted. -/
theorem c8_missing_host_400 (header : PyStr) (rest : List PyStr)
    (connectOk : Bool)
    (h2 : 2 ≤ (pySplitWs (pyStrip header)).length)
    (hm : pyUpper ((pySplitWs (pyStrip header)).getD 0 []) ≠ "CONNECT".data)
    (hh : ∀ line ∈ pySplit "\r\n".data (header ++ rest.flatten),
      ("host:".data).isPrefixOf (pyLower line) = false) :
    handle_client header rest connectOk =
      [CAct.writeC resp400, CAct.drainC, CAct.closeC] := by
  unfold handle_client
  dsimp only
  have hlen : ¬ (pySplitWs (pyStrip header)).length < 2 := by omega
  rw [if_neg hlen, if_neg hm]
  have hnone : host_header_of (header ++ rest.flatten) = none := by
    unfold host_header_of
    rw [List.findSome?_eq_none_iff]
    intro line hline
    simp [hh line hline]
  rw [hnone]

theorem c8_witness :
    2 ≤ (pySplitWs (pyStrip "GET http://example.com/ HTTP/1.1\r\n".data)).length ∧
    pyUpper ((pySplitWs
        (pyStrip "GET http://example.com/ HTTP/1.1\r\n".data)).getD 0 []) ≠
      "CONNECT".data ∧
    (∀ line ∈ pySplit "\r\n".data
        ("GET http://example.com/ HTTP/1.1\r\n".data ++
          ["Accept: text/html\r\n".data, "\r\n".data].flatten),
      ("host:".data).isPrefixOf (pyLower line) = false) ∧
    handle_client "GET http://example.com/ HTTP/1.1\r\n".data
        ["Accept: text/html\r\n".data, "\r\n".data] true =
      [CAct.writeC resp400, CAct.drainC, CAct.closeC] :=
  ⟨by decide, by decide, by decide,
    c8_missing_host_400 "GET http://example.com/ HTTP/1.1\r\n".data
      ["Accept: text/html\r\n".data, "\r\n".data] true
      (by decide) (by decide) (by decide)⟩

/-- C10: for every non-CONNECT request whose Host header scan yields a value
that strips to the empty string (the header is present but its value is empty
or whitespace-only after the colon), the proxy behaves as if the Host header
were absent: the client-visible trace is exactly one 400 status line, a drain
and the close, and no outbound connection is attempted. -/
theorem c10_blank_host_400 (header : PyStr) (rest : List PyStr)
    (connectOk : Bool)
    (h2 : 2 ≤ (pySplitWs (pyStrip header)).length)
    (hm : pyUpper ((pySplitWs (pyStrip header)).getD 0 []) ≠ "CONNECT".data)
    (hh : host_header_of (header ++ rest.flatten) = some []) :
    handle_client header rest connectOk =
      [CAct.writeC resp400, CAct.drainC, CAct.closeC] := by
  unfold handle_client
  dsimp only
  have hlen : ¬ (pySplitWs (pyStrip header)).length < 2 := by omega
  rw [if_neg hlen, if_neg hm, hh]
  rfl

theorem c10_witness :
    2 ≤ (pySplitWs (pyStrip "GET / HTTP/1.1\r\n".data)).length ∧
    pyUpper ((pySplitWs (pyStrip "GET / HTTP/1.1\r\n".data)).getD 0 []) ≠
      "CONNECT".data ∧
    host_header_of ("GET / HTTP/1.1\r\n".data ++
      ["Host:   \r\n".data, "\r\n".data].flatten) = some [] ∧
    handle_client "GET / HTTP/1.1\r\n".data
        ["Host:   \r\n".data, "\r\n".data] true =
      [CAct.writeC resp400, CAct.drainC, CAct.closeC] :=
  ⟨by decide, by decide, by decide,
    c10_blank_host_400 "GET / HTTP/1.1\r\n".data
      ["Host:   \r\n".data, "\r\n".data] true (by decide) (by decide)
      (by decide)⟩

